import Mathlib

/-!
Verification of the aggregation/filtering core of a personal-finance
dashboard (`app.py`).  The program loads expense rows from a spreadsheet,
normalizes them (numeric/date coercion, 6-digit period-key padding) and
computes grouped sums/counts/means, period filters, a substring search and
a two-range comparison.  We embed that core shallowly: records are lists of
a structure with `Option` fields for coercion failures, amounts are exact
rationals, pandas half-even rounding is `round2`, and Python string
comparison is `pyStrLe` over `List Char`.
-/

set_option maxHeartbeats 1000000
set_option maxRecDepth 100000

/-- Python string `<=`: lexicographic comparison on code points
(`df['年月'] >= start_month` in `create_period_selector`). -/
def pyStrLe : List Char → List Char → Bool
  | [], _ => true
  | _ :: _, [] => false
  | a :: as, b :: bs =>
    if a.toNat < b.toNat then true
    else if b.toNat < a.toNat then false
    else pyStrLe as bs

/-- Python `str.zfill(6)` (`df['年月'].astype(str).str.zfill(6)` in
`load_data`): left-pad with `'0'` to width 6, keeping a leading sign in
front; strings of length at least 6 are returned unchanged. -/
def zfill6 : List Char → List Char
  | [] => List.replicate 6 '0'
  | c :: rest =>
    if 6 ≤ (c :: rest).length then c :: rest
    else if c = '-' ∨ c = '+' then
      c :: (List.replicate (6 - (c :: rest).length) '0' ++ rest)
    else List.replicate (6 - (c :: rest).length) '0' ++ (c :: rest)

/-- `leadsList needle hay`: `needle` occurs at the very start of `hay`. -/
def leadsList : List Char → List Char → Bool
  | [], _ => true
  | _ :: _, [] => false
  | a :: as, b :: bs => a == b && leadsList as bs

/-- `hasSubstr hay needle`: `needle` occurs contiguously inside `hay`. -/
def hasSubstr : List Char → List Char → Bool
  | [], needle => needle.isEmpty
  | h :: t, needle => leadsList needle (h :: t) || hasSubstr t needle

/-- Case-insensitive substring match, the model of
`df['項目'].str.contains(search_term, case=False, na=False)` in
`create_search_analysis` for metacharacter-free search terms. -/
def containsCI (hay needle : List Char) : Bool :=
  hasSubstr (hay.map Char.toLower) (needle.map Char.toLower)

/-- Round a rational to the nearest integer, ties to even: the rounding
used by numpy/pandas `.round`. -/
def roundHE (x : ℚ) : ℤ :=
  if x - ⌊x⌋ < 1/2 then ⌊x⌋
  else if 1/2 < x - ⌊x⌋ then ⌊x⌋ + 1
  else if (⌊x⌋ : ℤ) % 2 = 0 then ⌊x⌋ else ⌊x⌋ + 1

/-- pandas `.round(2)`: round to 2 decimal places, ties to even. -/
def round2 (x : ℚ) : ℚ := (roundHE (x * 100) : ℚ) / 100

theorem abs_roundHE_sub_le (x : ℚ) : |(roundHE x : ℚ) - x| ≤ 1/2 := by
  have h0 : (⌊x⌋ : ℚ) ≤ x := Int.floor_le x
  have h1 : x < (⌊x⌋ : ℚ) + 1 := Int.lt_floor_add_one x
  unfold roundHE
  split_ifs with hlt hgt hev <;>
    · rw [abs_le]
      constructor <;> [skip; skip] <;> push_cast <;> linarith

theorem abs_round2_sub_le (x : ℚ) : |round2 x - x| ≤ 1/200 := by
  have h := abs_roundHE_sub_le (x * 100)
  unfold round2
  rw [show (roundHE (x * 100) : ℚ) / 100 - x = ((roundHE (x * 100) : ℚ) - x * 100) / 100 by
    ring]
  rw [abs_div]
  rw [show |(100 : ℚ)| = 100 by norm_num]
  linarith

/-- A normalized expense record: the row shape produced by `load_data`
after column renaming and coercion.  `amount` and `timestamp` are `none`
when `pd.to_numeric` / `pd.to_datetime` with `errors='coerce'` failed;
`timestamp` is an abstract day ordinal. -/
structure ExpenseRecord where
  category : List Char
  amount : Option ℚ
  timestamp : Option ℤ
  periodKey : List Char
  periodDisplay : List Char
deriving DecidableEq, Repr

/-- A raw spreadsheet row (first four columns), after cell-level coercion:
`amountCell`/`timestampCell` hold the result of the best-effort numeric and
datetime coercion, `periodRaw` is the `str()` form of the period cell. -/
structure RawRow where
  category : List Char
  amountCell : Option ℚ
  timestampCell : Option ℤ
  periodRaw : List Char
deriving DecidableEq, Repr

/-- A fetched batch: the DataFrame returned by the connector, with its
column count. -/
structure RawBatch where
  ncols : ℕ
  rows : List RawRow
deriving DecidableEq, Repr

/-- Per-row normalization done in `load_data`: pad the period cell to the
6-character key and derive year/month/display slices from it. -/
def normalizeRow (r : RawRow) : ExpenseRecord :=
  let key := zfill6 r.periodRaw
  { category := r.category
    amount := r.amountCell
    timestamp := r.timestampCell
    periodKey := key
    periodDisplay := key.take 4 ++ ['年'] ++ (key.drop 4).take 2 ++ ['月'] }

/-- `load_data`: if the fetched batch has fewer than 4 columns the whole
batch is dropped and the empty collection is returned; otherwise every row
is normalized. -/
def load_data (batch : RawBatch) : List ExpenseRecord :=
  if 4 ≤ batch.ncols then batch.rows.map normalizeRow else []

/-- Display derivation used for period keys: first four characters, `年`,
next two characters, `月`. -/
def deriveDisplay (key : List Char) : List Char :=
  key.take 4 ++ ['年'] ++ (key.drop 4).take 2 ++ ['月']

/-- A period key is valid when it is exactly 6 decimal digits. -/
def validPeriodKey (s : List Char) : Prop :=
  s.length = 6 ∧ ∀ c ∈ s, c.isDigit = true

instance (s : List Char) : Decidable (validPeriodKey s) := by
  unfold validPeriodKey
  infer_instance

/-- Category-label ordering: Python string comparison, used by pandas
`groupby` (which sorts group keys) and `sorted(...)`. -/
def catLe (a b : List Char) : Prop := pyStrLe a b = true

instance : DecidableRel catLe := fun a b => by unfold catLe; infer_instance

/-- Amounts that survived numeric coercion: the non-null entries of the
`金額` column, which pandas `sum`/`count`/`mean` operate on. -/
def presentAmounts (l : List ExpenseRecord) : List ℚ :=
  l.filterMap ExpenseRecord.amount

/-- pandas `Series.sum()` over the `金額` column (missing values skipped,
empty sum is 0). -/
def amountSum (l : List ExpenseRecord) : ℚ := (presentAmounts l).sum

/-- pandas `Series.count()` over the `金額` column (non-null entries). -/
def amountCount (l : List ExpenseRecord) : ℕ := (presentAmounts l).length

/-- pandas `Series.mean()` over the `金額` column: `none` models the NaN
produced when no non-null amount exists. -/
def amountMean (l : List ExpenseRecord) : Option ℚ :=
  if amountCount l = 0 then none else some (amountSum l / (amountCount l : ℚ))

/-- One row of a grouped `agg` with `sum`/`count`/`mean` followed by
`.round(2)`, as in `create_monthly_analysis` / `create_category_analysis`.
`mean` is `none` when the group has no non-null amount (NaN). -/
structure AggRow where
  total : ℚ
  count : ℕ
  mean : Option ℚ
deriving DecidableEq, Repr

/-- Aggregate the members of one group. -/
def aggRow (members : List ExpenseRecord) : AggRow :=
  { total := round2 (amountSum members)
    count := amountCount members
    mean := if amountCount members = 0 then none
            else some (round2 (amountSum members / (amountCount members : ℚ))) }

/-- Ordering of monthly summary rows: `sort_values('年月')`. -/
def monthPairLe (a b : List Char × List Char) : Prop := pyStrLe a.1 b.1 = true

instance : DecidableRel monthPairLe := fun a b => by unfold monthPairLe; infer_instance

/-- `create_monthly_analysis`: group by the pair `(年月, 年月表示)`,
aggregate `金額` with `sum`/`count`/`mean`, round to 2 decimals and sort by
`年月`. -/
def create_monthly_analysis (df : List ExpenseRecord) :
    List ((List Char × List Char) × AggRow) :=
  (((df.map fun r => (r.periodKey, r.periodDisplay)).dedup.insertionSort monthPairLe).map
    fun k => (k, aggRow (df.filter fun r => decide ((r.periodKey, r.periodDisplay) = k))))

/-- The distinct category labels of a collection, in pandas `groupby` key
order (sorted ascending). -/
def uniqueCats (df : List ExpenseRecord) : List (List Char) :=
  (df.map ExpenseRecord.category).dedup.insertionSort catLe

/-- Ordering of category summary rows: `sort_values('総支出',
ascending=False)`. -/
def catTotalDesc (a b : (List Char) × AggRow) : Prop := b.2.total ≤ a.2.total

instance : DecidableRel catTotalDesc := fun a b => by unfold catTotalDesc; infer_instance

/-- `create_category_analysis`: group by `項目`, aggregate `金額` with
`sum`/`count`/`mean`, round, and sort by total descending. -/
def create_category_analysis (df : List ExpenseRecord) :
    List ((List Char) × AggRow) :=
  (((uniqueCats df).map
      fun c => (c, aggRow (df.filter fun r => decide (r.category = c)))).insertionSort
    catTotalDesc)

/-- `create_search_analysis` result set: with a non-empty term, the rows
whose `項目` matches case-insensitively; the `if search_term:` guard makes
the empty term produce no result set at all. -/
def create_search_analysis (df : List ExpenseRecord) (term : List Char) :
    List ExpenseRecord :=
  if term = [] then [] else df.filter fun r => containsCI r.category term

/-- Outcome of one branch of `create_period_selector`: the returned
collection together with whether the inverted-range error message was
emitted. -/
structure FilterOutcome where
  result : List ExpenseRecord
  orderingError : Bool
deriving DecidableEq, Repr

/-- `sorted(df['年月'].unique())`: the distinct period keys present, in
Python string order. -/
def sortedUniqueMonths (df : List ExpenseRecord) : List (List Char) :=
  (df.map ExpenseRecord.periodKey).dedup.insertionSort catLe

/-- The `年月範囲指定` branch of `create_period_selector`: indices into
the sorted unique period keys; a valid range filters by string-range
comparison on the key, an inverted range returns the input unchanged and
signals the error. -/
def create_period_selector_monthRange (df : List ExpenseRecord)
    (startIdx endIdx : ℕ) : FilterOutcome :=
  let avail := sortedUniqueMonths df
  if startIdx ≤ endIdx then
    let s := avail.getD startIdx []
    let e := avail.getD endIdx []
    ⟨df.filter fun r => pyStrLe s r.periodKey && pyStrLe r.periodKey e, false⟩
  else ⟨df, true⟩

/-- The `日付範囲指定` branch of `create_period_selector`: inclusive
filter on the date component (records with an uncoerced timestamp compare
as NaT, hence are dropped); an inverted range returns the input unchanged
and signals the error. -/
def create_period_selector_dateRange (df : List ExpenseRecord)
    (startDate endDate : ℤ) : FilterOutcome :=
  if startDate ≤ endDate then
    ⟨df.filter fun r =>
        match r.timestamp with
        | some d => decide (startDate ≤ d) && decide (d ≤ endDate)
        | none => false,
      false⟩
  else ⟨df, true⟩

/-- Python slice `l[i:j]`. -/
def pySlice {α : Type} (l : List α) (i j : ℕ) : List α := (l.drop i).take (j - i)

/-- Records whose period key lies in the given month list:
`df[df['年月'].isin(months)]`. -/
def recordsInMonths (df : List ExpenseRecord) (months : List (List Char)) :
    List ExpenseRecord :=
  df.filter fun r => decide (r.periodKey ∈ months)

/-- Per-category totals of a range: `groupby('項目')['金額'].sum()` with
keys in sorted order. -/
def catTotal (df : List ExpenseRecord) (c : List Char) : ℚ :=
  amountSum (df.filter fun r => decide (r.category = c))

/-- Ordering by total descending: `sort_values(ascending=False)`. -/
def totalDesc (p q : (List Char) × ℚ) : Prop := q.2 ≤ p.2

instance : DecidableRel totalDesc := fun a b => by unfold totalDesc; infer_instance

/-- `groupby('項目')['金額'].sum().sort_values(ascending=False).head(10)`:
the top 10 categories of a range by total. -/
def top10 (df : List ExpenseRecord) : List ((List Char) × ℚ) :=
  ((((uniqueCats df).map fun c => (c, catTotal df c)).insertionSort totalDesc).take 10)

/-- `series.get(item, 0)`. -/
def lookupCat (l : List ((List Char) × ℚ)) (c : List Char) : ℚ :=
  match l.find? fun p => decide (p.1 = c) with
  | some p => p.2
  | none => 0

/-- The categories common to both top-10 lists:
`set(cat_a.index) & set(cat_b.index)`. -/
def commonCats (dfA dfB : List ExpenseRecord) : List (List Char) :=
  ((top10 dfA).map Prod.fst).filter fun c => decide (c ∈ (top10 dfB).map Prod.fst)

/-- One row of the per-category comparison table. -/
structure CompRow where
  cat : List Char
  valA : ℚ
  valB : ℚ
  delta : ℚ
deriving DecidableEq, Repr

/-- Ordering of comparison rows: `sort_values('差額', key=abs,
ascending=False)`. -/
def absDeltaDesc (r s : CompRow) : Prop := |s.delta| ≤ |r.delta|

instance : DecidableRel absDeltaDesc := fun a b => by unfold absDeltaDesc; infer_instance

instance : IsTotal CompRow absDeltaDesc :=
  ⟨fun a b => (le_total |b.delta| |a.delta|).elim Or.inl Or.inr⟩

instance : IsTrans CompRow absDeltaDesc :=
  ⟨fun _ _ _ h1 h2 => le_trans h2 h1⟩

/-- The per-category comparison table of `create_period_comparison`: one
row per common top-10 category with both totals and the signed delta,
sorted by absolute delta descending. -/
def compTable (dfA dfB : List ExpenseRecord) : List CompRow :=
  (((commonCats dfA dfB).map fun c =>
      { cat := c
        valA := lookupCat (top10 dfA) c
        valB := lookupCat (top10 dfB) c
        delta := lookupCat (top10 dfB) c - lookupCat (top10 dfA) c : CompRow }).insertionSort
    absDeltaDesc)

/-- The scalar comparison block of `create_period_comparison`: totals,
means and row counts of both ranges with signed deltas and guarded
percentage changes.  `Option` fields model NaN from empty-range means. -/
structure ScalarComparison where
  totalA : ℚ
  totalB : ℚ
  deltaTotal : ℚ
  pctTotal : ℚ
  meanA : Option ℚ
  meanB : Option ℚ
  deltaMean : Option ℚ
  pctMean : Option ℚ
  countA : ℕ
  countB : ℕ
  deltaCount : ℤ
  pctCount : ℚ
deriving DecidableEq, Repr

/-- `((total_b - total_a) / total_a * 100) if total_a > 0 else 0`. -/
def pctOfTotals (a b : ℚ) : ℚ := if 0 < a then (b - a) / a * 100 else 0

/-- `avg_b - avg_a` with NaN propagation. -/
def deltaOfMeans : Option ℚ → Option ℚ → Option ℚ
  | some a, some b => some (b - a)
  | _, _ => none

/-- `((avg_b - avg_a) / avg_a * 100) if avg_a > 0 else 0`: a NaN or
non-positive base yields 0; a positive base with NaN other side yields NaN. -/
def pctOfMeans : Option ℚ → Option ℚ → Option ℚ
  | some a, mb =>
    if 0 < a then
      match mb with
      | some b => some ((b - a) / a * 100)
      | none => none
    else some 0
  | none, _ => some 0

/-- The scalar metrics computed for a pair of materialized ranges. -/
def mkScalarComparison (dfA dfB : List ExpenseRecord) : ScalarComparison :=
  { totalA := amountSum dfA
    totalB := amountSum dfB
    deltaTotal := amountSum dfB - amountSum dfA
    pctTotal := pctOfTotals (amountSum dfA) (amountSum dfB)
    meanA := amountMean dfA
    meanB := amountMean dfB
    deltaMean := deltaOfMeans (amountMean dfA) (amountMean dfB)
    pctMean := pctOfMeans (amountMean dfA) (amountMean dfB)
    countA := dfA.length
    countB := dfB.length
    deltaCount := (dfB.length : ℤ) - (dfA.length : ℤ)
    pctCount :=
      if 0 < dfA.length then ((dfB.length : ℚ) - (dfA.length : ℚ)) / (dfA.length : ℚ) * 100
      else 0 }

/-- Outcome of `create_period_comparison`: fewer than 2 distinct months
aborts with a warning; an inverted range (either side) emits the ordering
error; otherwise both ranges are materialized and compared. -/
inductive ComparisonOutcome where
  | insufficientData : ComparisonOutcome
  | orderingError : ComparisonOutcome
  | ok : ScalarComparison → List CompRow → ComparisonOutcome
deriving DecidableEq, Repr

/-- `create_period_comparison`: ranges are start/end indices into the
sorted unique period keys, each range inclusive. -/
def create_period_comparison (df : List ExpenseRecord)
    (aS aE bS bE : ℕ) : ComparisonOutcome :=
  let avail := sortedUniqueMonths df
  if avail.length < 2 then .insufficientData
  else if aS ≤ aE ∧ bS ≤ bE then
    let dfA := recordsInMonths df (pySlice avail aS (aE + 1))
    let dfB := recordsInMonths df (pySlice avail bS (bE + 1))
    .ok (mkScalarComparison dfA dfB) (compTable dfA dfB)
  else .orderingError

/-- A record with amount 1000 booked to period 202311. -/
def recFood1000 : ExpenseRecord :=
  ⟨['f','o','o','d'], some 1000, some 10, ['2','0','2','3','1','1'],
    ['2','0','2','3','年','1','1','月']⟩

/-- A record with amount 500 booked to period 202311. -/
def recFood500 : ExpenseRecord :=
  ⟨['f','o','o','d'], some 500, some 11, ['2','0','2','3','1','1'],
    ['2','0','2','3','年','1','1','月']⟩

/-- A record with amount 300 booked to period 202312. -/
def recTrans300 : ExpenseRecord :=
  ⟨['t','r','a','n','s'], some 300, some 12, ['2','0','2','3','1','2'],
    ['2','0','2','3','年','1','2','月']⟩

/-- A record whose amount failed numeric coercion. -/
def recMissing : ExpenseRecord :=
  ⟨['f','o','o','d'], none, some 13, ['2','0','2','3','1','1'],
    ['2','0','2','3','年','1','1','月']⟩

/-- A record with a negative amount booked to period 202311. -/
def recNeg100 : ExpenseRecord :=
  ⟨['x'], some (-100), some 10, ['2','0','2','3','1','1'],
    ['2','0','2','3','年','1','1','月']⟩

/-- A record with amount 100 booked to period 202312. -/
def recPos100 : ExpenseRecord :=
  ⟨['y'], some 100, some 11, ['2','0','2','3','1','2'],
    ['2','0','2','3','年','1','2','月']⟩

/-- The three-record scenario collection of the specification. -/
def exDf : List ExpenseRecord := [recFood1000, recFood500, recTrans300]

/-- Claim C7: a fetched batch whose rows expose fewer than 4 columns is
treated as empty by the loader (fail-closed): `load_data` returns the
empty collection instead of a partially normalized one. -/
theorem c7_fail_closed (batch : RawBatch) (h : batch.ncols < 4) :
    load_data batch = [] := by
  unfold load_data
  rw [if_neg (by omega)]

theorem c7_fail_closed_witness :
    (RawBatch.ncols ⟨3, [⟨['x'], some 1, some 0, ['2']⟩]⟩ < 4) ∧
    load_data ⟨3, [⟨['x'], some 1, some 0, ['2']⟩]⟩ = [] :=
  ⟨by decide, c7_fail_closed ⟨3, [⟨['x'], some 1, some 0, ['2']⟩]⟩ (by decide)⟩

/-- Claim C2: a record whose amount failed numeric coercion contributes to
no sum, count or mean over the `金額` column, yet it is still a member of
the category-search result set and is counted in its row count. -/
theorem c2_missing_amount_visibility (l1 l2 : List ExpenseRecord)
    (r : ExpenseRecord) (term : List Char) (hmiss : r.amount = none)
    (hterm : term ≠ []) (hmatch : containsCI r.category term = true) :
    r ∈ create_search_analysis (l1 ++ r :: l2) term ∧
    (create_search_analysis (l1 ++ r :: l2) term).length
      = (create_search_analysis (l1 ++ l2) term).length + 1 ∧
    amountSum (create_search_analysis (l1 ++ r :: l2) term)
      = amountSum (create_search_analysis (l1 ++ l2) term) ∧
    amountCount (create_search_analysis (l1 ++ r :: l2) term)
      = amountCount (create_search_analysis (l1 ++ l2) term) ∧
    amountMean (create_search_analysis (l1 ++ r :: l2) term)
      = amountMean (create_search_analysis (l1 ++ l2) term) := by
  unfold create_search_analysis
  rw [if_neg hterm, if_neg hterm]
  have hfc : (r :: l2).filter (fun x => containsCI x.category term)
      = r :: l2.filter (fun x => containsCI x.category term) :=
    List.filter_cons_of_pos hmatch
  have hsum : amountSum ((l1 ++ r :: l2).filter fun x => containsCI x.category term)
      = amountSum ((l1 ++ l2).filter fun x => containsCI x.category term) := by
    unfold amountSum presentAmounts
    rw [List.filter_append, List.filter_append, hfc, List.filterMap_append,
      List.filterMap_append, List.filterMap_cons_none hmiss]
  have hcnt : amountCount ((l1 ++ r :: l2).filter fun x => containsCI x.category term)
      = amountCount ((l1 ++ l2).filter fun x => containsCI x.category term) := by
    unfold amountCount presentAmounts
    rw [List.filter_append, List.filter_append, hfc, List.filterMap_append,
      List.filterMap_append, List.filterMap_cons_none hmiss]
  refine ⟨?_, ?_, hsum, hcnt, ?_⟩
  · rw [List.filter_append, hfc]
    exact List.mem_append_right _ (List.mem_cons_self _ _)
  · rw [List.filter_append, List.filter_append, hfc]
    simp [List.length_append]
    omega
  · unfold amountMean
    rw [hsum, hcnt]

theorem c2_missing_amount_visibility_witness :
    recMissing ∈ create_search_analysis [recFood1000, recMissing] ['f','o','o'] ∧
    (create_search_analysis [recFood1000, recMissing] ['f','o','o']).length
      = (create_search_analysis [recFood1000] ['f','o','o']).length + 1 ∧
    amountSum (create_search_analysis [recFood1000, recMissing] ['f','o','o'])
      = amountSum (create_search_analysis [recFood1000] ['f','o','o']) ∧
    amountCount (create_search_analysis [recFood1000, recMissing] ['f','o','o'])
      = amountCount (create_search_analysis [recFood1000] ['f','o','o']) ∧
    amountMean (create_search_analysis [recFood1000, recMissing] ['f','o','o'])
      = amountMean (create_search_analysis [recFood1000] ['f','o','o']) :=
  c2_missing_amount_visibility [recFood1000] [] recMissing ['f','o','o']
    (by decide) (by decide) (by decide)

/-- Claim C9 counterexample: with the empty search term the record is not
in the result set even though its category label contains the empty string
as a (case-insensitive) substring, so inclusion is not equivalent to the
substring test. -/
theorem c9_counterexample :
    ¬ (recFood1000 ∈ create_search_analysis [recFood1000] [] ↔
        containsCI recFood1000.category [] = true) := by
  with_unfolding_all decide

/-- Claim C9 (amended): for a non-empty term a record is in the search
result iff it is in the input and its category label matches
case-insensitively; the empty term selects nothing. -/
theorem c9_search_contract (df : List ExpenseRecord) (term : List Char)
    (r : ExpenseRecord) (hterm : term ≠ []) :
    (r ∈ create_search_analysis df term ↔
      r ∈ df ∧ containsCI r.category term = true) ∧
    create_search_analysis df [] = [] := by
  constructor
  · unfold create_search_analysis
    rw [if_neg hterm]
    exact List.mem_filter
  · unfold create_search_analysis
    rw [if_pos rfl]

theorem c9_search_contract_witness :
    (recFood1000 ∈ create_search_analysis [recFood1000] ['f','o','o'] ↔
      recFood1000 ∈ [recFood1000] ∧
        containsCI recFood1000.category ['f','o','o'] = true) ∧
    create_search_analysis [recFood1000] [] = [] :=
  c9_search_contract [recFood1000] ['f','o','o'] recFood1000 (by decide)

/-- Claim C6: an inverted range (start after end) supplied to the
month-range filter, the date-range filter, or the period comparator leaves
the collection unfiltered (for the filters) and signals the ordering
condition instead of failing; the comparator (reachable only once at least
two distinct months exist, since its selectors are only rendered then)
reports the ordering error. -/
theorem c6_ordering_rejected :
    (∀ df i j, j < i → create_period_selector_monthRange df i j = ⟨df, true⟩) ∧
    (∀ df s e, e < s → create_period_selector_dateRange df s e = ⟨df, true⟩) ∧
    (∀ df aS aE bS bE, 2 ≤ (sortedUniqueMonths df).length →
      ¬(aS ≤ aE ∧ bS ≤ bE) →
      create_period_comparison df aS aE bS bE = .orderingError) := by
  refine ⟨fun df i j h => ?_, fun df s e h => ?_,
    fun df aS aE bS bE h2 hbad => ?_⟩
  · simp only [create_period_selector_monthRange]
    rw [if_neg (by omega)]
  · simp only [create_period_selector_dateRange]
    rw [if_neg (by omega)]
  · simp only [create_period_comparison]
    rw [if_neg (by omega), if_neg hbad]

theorem c6_ordering_rejected_witness :
    create_period_selector_monthRange exDf 1 0 = ⟨exDf, true⟩ ∧
    create_period_selector_dateRange exDf 5 2 = ⟨exDf, true⟩ ∧
    create_period_comparison exDf 1 0 0 1 = .orderingError :=
  ⟨c6_ordering_rejected.1 exDf 1 0 (by decide),
    c6_ordering_rejected.2.1 exDf 5 2 (by decide),
    c6_ordering_rejected.2.2 exDf 1 0 0 1 (by with_unfolding_all decide)
      (by decide)⟩

/-- Inversion for the comparator: a successful comparison is the scalar
block and table of the two materialized ranges. -/
theorem comparison_ok_inv {df : List ExpenseRecord} {aS aE bS bE : ℕ}
    {s : ScalarComparison} {t : List CompRow}
    (h : create_period_comparison df aS aE bS bE = .ok s t) :
    ∃ dfA dfB, s = mkScalarComparison dfA dfB ∧ t = compTable dfA dfB := by
  simp only [create_period_comparison] at h
  split_ifs at h
  cases h
  exact ⟨_, _, rfl, rfl⟩

/-- Claim C10: the comparator's percentage-change guard tests a strictly
positive base, so whenever range A's total or mean is negative (or zero or
missing), and whenever its row count is zero, the reported percentage
change is 0 regardless of range B. -/
theorem c10_nonpositive_base (df : List ExpenseRecord) (aS aE bS bE : ℕ)
    (s : ScalarComparison) (t : List CompRow)
    (hok : create_period_comparison df aS aE bS bE = .ok s t) :
    (s.totalA ≤ 0 → s.pctTotal = 0) ∧
    (∀ a, s.meanA = some a → a ≤ 0 → s.pctMean = some 0) ∧
    (s.meanA = none → s.pctMean = some 0) ∧
    (s.countA = 0 → s.pctCount = 0) := by
  obtain ⟨dfA, dfB, rfl, rfl⟩ := comparison_ok_inv hok
  refine ⟨fun h => ?_, fun a ha h => ?_, fun ha => ?_, fun h => ?_⟩
  · simp only [mkScalarComparison, pctOfTotals] at h ⊢
    rw [if_neg (not_lt.2 h)]
  · simp only [mkScalarComparison] at ha ⊢
    rw [ha]
    simp only [pctOfMeans]
    rw [if_neg (not_lt.2 h)]
  · simp only [mkScalarComparison] at ha ⊢
    rw [ha]
    rfl
  · simp only [mkScalarComparison] at h ⊢
    rw [if_neg (by omega)]

theorem c10_nonpositive_base_witness :
    (mkScalarComparison [recNeg100] [recPos100]).pctTotal = 0 :=
  (c10_nonpositive_base [recNeg100, recPos100] 0 0 1 1
      (mkScalarComparison [recNeg100] [recPos100])
      (compTable [recNeg100] [recPos100])
      (by with_unfolding_all rfl)).1
    (by
      show amountSum [recNeg100] ≤ 0
      have : amountSum [recNeg100] = -100 := by with_unfolding_all rfl
      rw [this]
      norm_num)

/-- Claim C3 counterexample: comparing the single-month ranges around a
negative total, the comparator reports a percentage change of 0 although
the base total is non-zero and the formula `(B-A)/A*100` gives -200, so
the reported value is not the formula. -/
theorem c3_counterexample :
    create_period_comparison [recNeg100, recPos100] 0 0 1 1
      = .ok (mkScalarComparison [recNeg100] [recPos100])
          (compTable [recNeg100] [recPos100]) ∧
    (mkScalarComparison [recNeg100] [recPos100]).totalA ≠ 0 ∧
    (mkScalarComparison [recNeg100] [recPos100]).pctTotal = 0 ∧
    ((mkScalarComparison [recNeg100] [recPos100]).totalB
        - (mkScalarComparison [recNeg100] [recPos100]).totalA)
      / (mkScalarComparison [recNeg100] [recPos100]).totalA * 100 = -200 := by
  refine ⟨by with_unfolding_all rfl, ?_, by with_unfolding_all rfl, ?_⟩
  · have h : (mkScalarComparison [recNeg100] [recPos100]).totalA = -100 := by
      with_unfolding_all rfl
    rw [h]
    norm_num
  · have hA : (mkScalarComparison [recNeg100] [recPos100]).totalA = -100 := by
      with_unfolding_all rfl
    have hB : (mkScalarComparison [recNeg100] [recPos100]).totalB = 100 := by
      with_unfolding_all rfl
    rw [hA, hB]
    norm_num

/-- Claim C3 (amended): for every successful comparison, each scalar delta
is the signed difference `B - A`; the percentage change equals
`(B-A)/A*100` when the base is strictly positive and equals 0 when the
base is non-positive (for the mean: when the base mean is non-positive or
missing; a missing comparison mean with positive base stays missing). -/
theorem c3_scalar_deltas (df : List ExpenseRecord) (aS aE bS bE : ℕ)
    (s : ScalarComparison) (t : List CompRow)
    (hok : create_period_comparison df aS aE bS bE = .ok s t) :
    s.deltaTotal = s.totalB - s.totalA ∧
    (0 < s.totalA → s.pctTotal = (s.totalB - s.totalA) / s.totalA * 100) ∧
    (s.totalA ≤ 0 → s.pctTotal = 0) ∧
    s.deltaCount = (s.countB : ℤ) - (s.countA : ℤ) ∧
    (0 < s.countA → s.pctCount = ((s.countB : ℚ) - (s.countA : ℚ)) / (s.countA : ℚ) * 100) ∧
    (s.countA = 0 → s.pctCount = 0) ∧
    (∀ a b, s.meanA = some a → s.meanB = some b → s.deltaMean = some (b - a)) ∧
    (∀ a b, s.meanA = some a → 0 < a → s.meanB = some b →
      s.pctMean = some ((b - a) / a * 100)) ∧
    (∀ a, s.meanA = some a → a ≤ 0 → s.pctMean = some 0) ∧
    (s.meanA = none → s.pctMean = some 0) := by
  obtain ⟨dfA, dfB, rfl, rfl⟩ := comparison_ok_inv hok
  refine ⟨rfl, fun h => ?_, fun h => ?_, rfl, fun h => ?_, fun h => ?_,
    fun a b ha hb => ?_, fun a b ha hpos hb => ?_, fun a ha h => ?_, fun ha => ?_⟩
  · simp only [mkScalarComparison, pctOfTotals] at h ⊢
    rw [if_pos h]
  · simp only [mkScalarComparison, pctOfTotals] at h ⊢
    rw [if_neg (not_lt.2 h)]
  · simp only [mkScalarComparison] at h ⊢
    rw [if_pos h]
  · simp only [mkScalarComparison] at h ⊢
    rw [if_neg (by omega)]
  · simp only [mkScalarComparison] at ha hb ⊢
    rw [ha, hb] at *
    rfl
  · simp only [mkScalarComparison] at ha hb ⊢
    rw [ha, hb]
    simp only [pctOfMeans]
    rw [if_pos hpos]
  · simp only [mkScalarComparison] at ha ⊢
    rw [ha]
    simp only [pctOfMeans]
    rw [if_neg (not_lt.2 h)]
  · simp only [mkScalarComparison] at ha ⊢
    rw [ha]
    rfl

theorem c3_scalar_deltas_witness :
    (mkScalarComparison [recFood1000, recFood500] [recTrans300]).deltaTotal
      = (mkScalarComparison [recFood1000, recFood500] [recTrans300]).totalB
        - (mkScalarComparison [recFood1000, recFood500] [recTrans300]).totalA ∧
    (mkScalarComparison [recFood1000, recFood500] [recTrans300]).pctTotal
      = ((mkScalarComparison [recFood1000, recFood500] [recTrans300]).totalB
          - (mkScalarComparison [recFood1000, recFood500] [recTrans300]).totalA)
        / (mkScalarComparison [recFood1000, recFood500] [recTrans300]).totalA * 100 := by
  have h := c3_scalar_deltas exDf 0 0 1 1
    (mkScalarComparison [recFood1000, recFood500] [recTrans300])
    (compTable [recFood1000, recFood500] [recTrans300])
    (by with_unfolding_all rfl)
  refine ⟨h.1, h.2.1 ?_⟩
  have hA : (mkScalarComparison [recFood1000, recFood500] [recTrans300]).totalA = 1500 := by
    with_unfolding_all rfl
  rw [hA]
  norm_num

/-- In a group with at least one surviving amount, the rounded mean is
within 0.01 of the rounded total divided by the count. -/
theorem aggRow_mean_close (members : List ExpenseRecord)
    (h : 0 < (aggRow members).count) :
    (aggRow members).mean.isSome = true ∧
    |(aggRow members).mean.getD 0
      - (aggRow members).total / ((aggRow members).count : ℚ)| ≤ 1/100 := by
  have hn : amountCount members ≠ 0 := by
    simp only [aggRow] at h
    omega
  simp only [aggRow, if_neg hn, Option.isSome_some, Option.getD_some, true_and]
  set S := amountSum members with hS
  set n := amountCount members with hn'
  have hn1 : (1 : ℚ) ≤ (n : ℚ) := by
    have : 1 ≤ n := Nat.one_le_iff_ne_zero.2 hn
    exact_mod_cast this
  have hnpos : (0 : ℚ) < (n : ℚ) := by linarith
  have h1 := abs_round2_sub_le (S / (n : ℚ))
  have h2 := abs_round2_sub_le S
  have h3 : |S / (n : ℚ) - round2 S / (n : ℚ)| ≤ 1/200 := by
    rw [show S / (n : ℚ) - round2 S / (n : ℚ) = (S - round2 S) / (n : ℚ) by ring,
      abs_div, abs_of_pos hnpos]
    have h4 : |S - round2 S| ≤ 1/200 := by
      rw [abs_sub_comm]
      exact h2
    have h5 : |S - round2 S| / (n : ℚ) ≤ |S - round2 S| :=
      div_le_self (abs_nonneg _) hn1
    linarith
  calc |round2 (S / (n : ℚ)) - round2 S / (n : ℚ)|
      ≤ |round2 (S / (n : ℚ)) - S / (n : ℚ)| + |S / (n : ℚ) - round2 S / (n : ℚ)| :=
        abs_sub_le _ _ _
    _ ≤ 1/200 + 1/200 := add_le_add h1 h3
    _ = 1/100 := by norm_num

/-- In a group in which every amount failed coercion, the rounded total is
0 and the mean is missing. -/
theorem aggRow_count_zero (members : List ExpenseRecord)
    (h : (aggRow members).count = 0) :
    (aggRow members).total = 0 ∧ (aggRow members).mean = none := by
  simp only [aggRow] at h ⊢
  have hs : amountSum members = 0 := by
    unfold amountSum
    unfold amountCount at h
    rw [List.length_eq_zero] at h
    rw [h]
    rfl
  refine ⟨?_, if_pos h⟩
  rw [hs]
  unfold round2 roundHE
  norm_num

/-- Claim C1 counterexample: a collection with a single record whose
amount failed coercion produces a monthly aggregate row whose count is 0,
so rows with `count == 0` do appear in the output. -/
theorem c1_counterexample :
    ¬ (∀ p ∈ create_monthly_analysis [recMissing], 0 < p.2.count) := by
  with_unfolding_all decide

/-- Claim C1 (amended): in both the monthly and the category aggregates,
every row with positive count has a mean within rounding (0.01) of
`total / count`; rows with `count == 0` can appear, namely for groups all
of whose records have missing amounts, and such rows carry total 0 and a
missing mean. -/
theorem c1_mean_invariant (df : List ExpenseRecord) :
    (∀ p ∈ create_monthly_analysis df, 0 < p.2.count →
      p.2.mean.isSome = true ∧
      |p.2.mean.getD 0 - p.2.total / (p.2.count : ℚ)| ≤ 1/100) ∧
    (∀ p ∈ create_category_analysis df, 0 < p.2.count →
      p.2.mean.isSome = true ∧
      |p.2.mean.getD 0 - p.2.total / (p.2.count : ℚ)| ≤ 1/100) ∧
    (∀ p ∈ create_monthly_analysis df, p.2.count = 0 →
      p.2.total = 0 ∧ p.2.mean = none) := by
  refine ⟨fun p hp h => ?_, fun p hp h => ?_, fun p hp h => ?_⟩
  · simp only [create_monthly_analysis, List.mem_map] at hp
    obtain ⟨k, _, rfl⟩ := hp
    exact aggRow_mean_close _ h
  · simp only [create_category_analysis, List.mem_insertionSort, List.mem_map] at hp
    obtain ⟨c, _, rfl⟩ := hp
    exact aggRow_mean_close _ h
  · simp only [create_monthly_analysis, List.mem_map] at hp
    obtain ⟨k, _, rfl⟩ := hp
    exact aggRow_count_zero _ h

theorem c1_mean_invariant_witness :
    ((((['2','0','2','3','1','1'], ['2','0','2','3','年','1','1','月']),
        (⟨1500, 2, some 750⟩ : AggRow)) :
        (List Char × List Char) × AggRow).2.mean.isSome = true) ∧
    |((⟨1500, 2, some 750⟩ : AggRow).mean.getD 0
        - (⟨1500, 2, some 750⟩ : AggRow).total / ((⟨1500, 2, some 750⟩ : AggRow).count : ℚ))| ≤ 1/100 :=
  (c1_mean_invariant exDf).1
    ((['2','0','2','3','1','1'], ['2','0','2','3','年','1','1','月']), ⟨1500, 2, some 750⟩)
    (by with_unfolding_all decide) (by decide)

/-- Every entry of the top-10 list pairs a category with its range total. -/
theorem top10_snd (df : List ExpenseRecord) (p : (List Char) × ℚ)
    (hp : p ∈ top10 df) : p.2 = catTotal df p.1 := by
  unfold top10 at hp
  have hp2 := List.take_subset _ _ hp
  rw [List.mem_insertionSort] at hp2
  obtain ⟨c, _, rfl⟩ := List.mem_map.1 hp2
  rfl

/-- Looking a common category up in the top-10 list recovers its range
total. -/
theorem lookupCat_top10 (df : List ExpenseRecord) (c : List Char)
    (hc : c ∈ (top10 df).map Prod.fst) :
    lookupCat (top10 df) c = catTotal df c := by
  obtain ⟨p, hp, rfl⟩ := List.mem_map.1 hc
  unfold lookupCat
  cases hfind : (top10 df).find? (fun q => decide (q.1 = p.1)) with
  | none =>
    rw [List.find?_eq_none] at hfind
    exact absurd (by simp : (decide (p.1 = p.1)) = true)
      (by simpa using hfind p hp)
  | some q =>
    have hq1 : q.1 = p.1 := by
      have := List.find?_some hfind
      simpa using this
    have hqmem : q ∈ top10 df := List.mem_of_find?_eq_some hfind
    show q.2 = catTotal df p.1
    rw [top10_snd df q hqmem, hq1]

/-- Claim C5: the per-category comparison table contains exactly the
categories common to both independent top-10 lists, each row's delta is
the signed difference of the category totals `B - A`, the table is sorted
descending by absolute delta, and an empty intersection yields the empty
table. -/
theorem c5_comparison_table (dfA dfB : List ExpenseRecord) :
    (∀ c, c ∈ (compTable dfA dfB).map CompRow.cat ↔
      (c ∈ (top10 dfA).map Prod.fst ∧ c ∈ (top10 dfB).map Prod.fst)) ∧
    (∀ row ∈ compTable dfA dfB,
      row.delta = catTotal dfB row.cat - catTotal dfA row.cat) ∧
    List.Pairwise absDeltaDesc (compTable dfA dfB) ∧
    ((∀ c ∈ (top10 dfA).map Prod.fst, c ∉ (top10 dfB).map Prod.fst) →
      compTable dfA dfB = []) := by
  refine ⟨fun c => ?_, fun row hrow => ?_, ?_, fun hdisj => ?_⟩
  · unfold compTable commonCats
    simp only [List.mem_map, List.mem_insertionSort, List.mem_filter,
      decide_eq_true_eq]
    constructor
    · rintro ⟨row, ⟨c', ⟨hc'A, hc'B⟩, rfl⟩, rfl⟩
      exact ⟨hc'A, hc'B⟩
    · rintro ⟨hcA, hcB⟩
      exact ⟨_, ⟨c, ⟨hcA, hcB⟩, rfl⟩, rfl⟩
  · unfold compTable at hrow
    rw [List.mem_insertionSort] at hrow
    obtain ⟨c, hc, rfl⟩ := List.mem_map.1 hrow
    unfold commonCats at hc
    rw [List.mem_filter] at hc
    obtain ⟨hcA, hcB⟩ := hc
    rw [decide_eq_true_eq] at hcB
    show lookupCat (top10 dfB) c - lookupCat (top10 dfA) c = _
    rw [lookupCat_top10 dfA c hcA, lookupCat_top10 dfB c hcB]
  · exact List.sorted_insertionSort absDeltaDesc _
  · unfold compTable commonCats
    rw [List.filter_eq_nil_iff.2 (by
      intro c hc
      simpa using hdisj c hc)]
    rfl

theorem c5_comparison_table_witness :
    (⟨['f','o','o','d'], 1500, 500, -1000⟩ : CompRow).delta
      = catTotal [recFood500, recTrans300] ['f','o','o','d']
        - catTotal [recFood1000, recFood500] ['f','o','o','d'] :=
  (c5_comparison_table [recFood1000, recFood500] [recFood500, recTrans300]).2.1
    ⟨['f','o','o','d'], 1500, 500, -1000⟩ (by with_unfolding_all decide)

/-- Zero-padding a digit string of length at most 6 yields a valid
6-digit key. -/
theorem zfill6_valid (s : List Char) (hd : ∀ c ∈ s, c.isDigit = true)
    (hl : s.length ≤ 6) : validPeriodKey (zfill6 s) := by
  cases s with
  | nil => exact ⟨by decide, by decide⟩
  | cons c rest =>
    have hc : c.isDigit = true := hd c (List.mem_cons_self _ _)
    simp only [zfill6]
    split_ifs with h6 hsign
    · exact ⟨by simp only [List.length_cons] at hl h6 ⊢; omega, hd⟩
    · rcases hsign with rfl | rfl <;> exact absurd hc (by decide)
    · constructor
      · simp only [List.length_append, List.length_replicate, List.length_cons] at hl ⊢
        omega
      · intro x hx
        rcases List.mem_append.1 hx with hx | hx
        · rw [List.eq_of_mem_replicate hx]
          decide
        · exact hd x hx

/-- A raw row whose period cell stringifies to 7 digits. -/
def badPeriodRow : RawRow := ⟨['x'], some 1, some 0, ['1','2','3','4','5','6','7']⟩

/-- Claim C8 counterexample: `zfill(6)` never truncates, so a raw period
value with more than 6 characters survives normalization as a key that is
not a valid 6-digit string. -/
theorem c8_counterexample :
    ¬ validPeriodKey (normalizeRow badPeriodRow).periodKey := by
  with_unfolding_all decide

/-- Claim C8 (amended): whenever the raw period value stringifies to a
digit string of at most 6 characters, the normalized key is a valid
6-digit string; independently of that, the display form is always derived
from the key (first four characters, `年`, next two, `月`), never stored
separately. -/
theorem c8_period_key_normalization (row : RawRow) :
    ((∀ c ∈ row.periodRaw, c.isDigit = true) → row.periodRaw.length ≤ 6 →
      validPeriodKey (normalizeRow row).periodKey) ∧
    (normalizeRow row).periodDisplay = deriveDisplay (normalizeRow row).periodKey := by
  constructor
  · intro hd hl
    exact zfill6_valid _ hd hl
  · rfl

theorem c8_period_key_normalization_witness :
    validPeriodKey
      (normalizeRow ⟨['x'], some 1, some 0, ['2','3','1','1']⟩).periodKey ∧
    (normalizeRow ⟨['x'], some 1, some 0, ['2','3','1','1']⟩).periodDisplay
      = deriveDisplay (normalizeRow ⟨['x'], some 1, some 0, ['2','3','1','1']⟩).periodKey :=
  ⟨(c8_period_key_normalization ⟨['x'], some 1, some 0, ['2','3','1','1']⟩).1
      (by decide) (by decide),
    (c8_period_key_normalization ⟨['x'], some 1, some 0, ['2','3','1','1']⟩).2⟩

/-- Big-endian decimal digits of a natural number. -/
def digitsBE (n : ℕ) : List ℕ := (Nat.digits 10 n).reverse

/-- Python `str(n)` for a natural number. -/
def natStr (n : ℕ) : List Char :=
  if n = 0 then ['0'] else (digitsBE n).map Nat.digitChar

/-- The loader's period-key encoding of a numeric period value:
`str(n).zfill(6)`. -/
def encodePeriod (n : ℕ) : List Char := zfill6 (natStr n)

/-- Chronological order of two numeric year-month values: earlier year, or
same year and earlier-or-equal month. -/
def chronLe (k1 k2 : ℕ) : Prop :=
  k1 / 100 < k2 / 100 ∨ (k1 / 100 = k2 / 100 ∧ k1 % 100 ≤ k2 % 100)

/-- Lexicographic comparison of big-endian digit lists, mirroring
`pyStrLe` on the underlying digits. -/
def digLe : List ℕ → List ℕ → Bool
  | [], _ => true
  | _ :: _, [] => false
  | a :: as, b :: bs => if a < b then true else if b < a then false else digLe as bs

/-- Numeric value of a big-endian digit list. -/
def valBE (l : List ℕ) : ℕ := l.foldl (fun a d => 10 * a + d) 0

/-- Zero-pad a digit list on the left to length 6. -/
def pad6 (l : List ℕ) : List ℕ := List.replicate (6 - l.length) 0 ++ l

theorem valBE_foldl (l : List ℕ) (acc : ℕ) :
    l.foldl (fun a d => 10 * a + d) acc = acc * 10 ^ l.length + valBE l := by
  induction l generalizing acc with
  | nil => simp [valBE]
  | cons d t ih =>
    show t.foldl _ (10 * acc + d) = _
    rw [ih (10 * acc + d)]
    have h2 : valBE (d :: t) = d * 10 ^ t.length + valBE t := by
      show t.foldl _ (10 * 0 + d) = _
      rw [ih (10 * 0 + d)]
      ring
    rw [List.length_cons, h2]
    ring

theorem valBE_cons (d : ℕ) (t : List ℕ) :
    valBE (d :: t) = d * 10 ^ t.length + valBE t := by
  show t.foldl _ (10 * 0 + d) = _
  rw [valBE_foldl]
  ring

theorem valBE_lt (l : List ℕ) (h : ∀ d ∈ l, d < 10) :
    valBE l < 10 ^ l.length := by
  induction l with
  | nil => simp [valBE]
  | cons d t ih =>
    have hd : d < 10 := h d (List.mem_cons_self _ _)
    have ht := ih fun x hx => h x (List.mem_cons_of_mem _ hx)
    rw [List.length_cons]
    calc valBE (d :: t) = d * 10 ^ t.length + valBE t := valBE_cons d t
      _ < d * 10 ^ t.length + 10 ^ t.length := by omega
      _ = (d + 1) * 10 ^ t.length := by ring
      _ ≤ 10 * 10 ^ t.length := Nat.mul_le_mul_right _ (by omega)
      _ = 10 ^ (t.length + 1) := by ring

theorem valBE_replicate_zero (k : ℕ) (l : List ℕ) :
    valBE (List.replicate k 0 ++ l) = valBE l := by
  induction k with
  | zero => simp
  | succ k ih =>
    rw [List.replicate_succ, List.cons_append, valBE_cons, ih]
    simp

theorem valBE_reverse_ofDigits (L : List ℕ) :
    valBE L.reverse = Nat.ofDigits 10 L := by
  induction L with
  | nil => simp [valBE]
  | cons d t ih =>
    rw [List.reverse_cons]
    have h : valBE (t.reverse ++ [d]) = 10 * valBE t.reverse + d := by
      unfold valBE
      rw [List.foldl_append]
      rfl
    rw [h, ih, Nat.ofDigits_cons]
    ring

theorem valBE_digitsBE (n : ℕ) : valBE (digitsBE n) = n := by
  unfold digitsBE
  rw [valBE_reverse_ofDigits, Nat.ofDigits_digits]

theorem digitsBE_lt (n : ℕ) : ∀ d ∈ digitsBE n, d < 10 := by
  intro d hd
  rw [digitsBE, List.mem_reverse] at hd
  exact Nat.digits_lt_base (by norm_num) hd

theorem digitsBE_len_le (n : ℕ) (h : n < 1000000) : (digitsBE n).length ≤ 6 := by
  rw [digitsBE, List.length_reverse]
  by_contra hlen
  push_neg at hlen
  rcases Nat.eq_zero_or_pos n with rfl | hn
  · simp at hlen
  · have h10 := Nat.base_pow_length_digits_le 10 n (by norm_num) (by omega)
    have hp : (10 : ℕ) ^ 7 ≤ 10 ^ (Nat.digits 10 n).length :=
      Nat.pow_le_pow_right (by norm_num) (by omega)
    have hcomb : (10 : ℕ) ^ 7 ≤ 10 * n := le_trans hp h10
    norm_num at hcomb
    omega

theorem digLe_iff (a : List ℕ) : ∀ b : List ℕ, a.length = b.length →
    (∀ d ∈ a, d < 10) → (∀ d ∈ b, d < 10) →
    (digLe a b = true ↔ valBE a ≤ valBE b) := by
  induction a with
  | nil =>
    intro b hlen _ _
    have hb : b = [] := List.length_eq_zero.1 hlen.symm
    subst hb
    simp [digLe]
  | cons x xs ih =>
    intro b hlen ha hb
    cases b with
    | nil => simp at hlen
    | cons y ys =>
      have hlen' : xs.length = ys.length := by simpa using hlen
      have hx : x < 10 := ha x (List.mem_cons_self _ _)
      have hy : y < 10 := hb y (List.mem_cons_self _ _)
      have hxs : valBE xs < 10 ^ xs.length :=
        valBE_lt xs fun d hd => ha d (List.mem_cons_of_mem _ hd)
      have hys : valBE ys < 10 ^ ys.length :=
        valBE_lt ys fun d hd => hb d (List.mem_cons_of_mem _ hd)
      rw [← hlen'] at hys
      rw [valBE_cons, valBE_cons, ← hlen']
      rcases Nat.lt_trichotomy x y with hlt | heq | hgt
      · have hred : digLe (x :: xs) (y :: ys) = true := by
          simp [digLe, if_pos hlt]
        rw [hred]
        constructor
        · intro _
          calc x * 10 ^ xs.length + valBE xs
              ≤ x * 10 ^ xs.length + 10 ^ xs.length :=
                Nat.add_le_add_left (le_of_lt hxs) _
            _ = (x + 1) * 10 ^ xs.length := by ring
            _ ≤ y * 10 ^ xs.length := Nat.mul_le_mul_right _ (by omega)
            _ ≤ y * 10 ^ xs.length + valBE ys := Nat.le_add_right _ _
        · intro _
          rfl
      · subst heq
        have hred : digLe (x :: xs) (x :: ys) = digLe xs ys := by
          simp [digLe]
        rw [hred, ih ys hlen' (fun d hd => ha d (List.mem_cons_of_mem _ hd))
          (fun d hd => hb d (List.mem_cons_of_mem _ hd)),
          add_le_add_iff_left]
      · have hred : digLe (x :: xs) (y :: ys) = false := by
          simp [digLe, hgt, Nat.lt_asymm hgt]
        rw [hred]
        constructor
        · intro habs
          exact absurd habs (by simp)
        · intro hle
          exfalso
          have hstrict : y * 10 ^ xs.length + valBE ys
              < x * 10 ^ xs.length + valBE xs := by
            calc y * 10 ^ xs.length + valBE ys
                < y * 10 ^ xs.length + 10 ^ xs.length :=
                  Nat.add_lt_add_left hys _
              _ = (y + 1) * 10 ^ xs.length := by ring
              _ ≤ x * 10 ^ xs.length := Nat.mul_le_mul_right _ (by omega)
              _ ≤ x * 10 ^ xs.length + valBE xs := Nat.le_add_right _ _
          omega

theorem pad6_length (l : List ℕ) (h : l.length ≤ 6) : (pad6 l).length = 6 := by
  simp [pad6]
  omega

theorem pad6_lt (l : List ℕ) (h : ∀ d ∈ l, d < 10) : ∀ d ∈ pad6 l, d < 10 := by
  intro d hd
  rcases List.mem_append.1 hd with hd | hd
  · rw [List.eq_of_mem_replicate hd]
    norm_num
  · exact h d hd

theorem valBE_pad6 (l : List ℕ) : valBE (pad6 l) = valBE l :=
  valBE_replicate_zero _ _

theorem digitChar_toNat_eq : ∀ d, d < 10 → (Nat.digitChar d).toNat = 48 + d := by
  decide

theorem digitChar_ne_sign :
    ∀ d, d < 10 → ¬(Nat.digitChar d = '-' ∨ Nat.digitChar d = '+') := by
  decide

theorem pyStrLe_map_digitChar (a : List ℕ) : ∀ b : List ℕ,
    (∀ d ∈ a, d < 10) → (∀ d ∈ b, d < 10) →
    pyStrLe (a.map Nat.digitChar) (b.map Nat.digitChar) = digLe a b := by
  induction a with
  | nil =>
    intro b _ _
    cases b <;> rfl
  | cons x xs ih =>
    intro b ha hb
    cases b with
    | nil => rfl
    | cons y ys =>
      have hx := digitChar_toNat_eq x (ha x (List.mem_cons_self _ _))
      have hy := digitChar_toNat_eq y (hb y (List.mem_cons_self _ _))
      simp only [List.map_cons, pyStrLe, digLe]
      rw [hx, hy]
      rcases Nat.lt_trichotomy x y with hlt | heq | hgt
      · rw [if_pos (by omega), if_pos hlt]
      · subst heq
        rw [if_neg (by omega), if_neg (by omega), if_neg (lt_irrefl _),
          if_neg (lt_irrefl _)]
        exact ih ys (fun d hd => ha d (List.mem_cons_of_mem _ hd))
          (fun d hd => hb d (List.mem_cons_of_mem _ hd))
      · rw [if_neg (by omega), if_pos (by omega), if_neg (by omega), if_pos hgt]

theorem encodePeriod_eq (n : ℕ) (h : n < 1000000) :
    encodePeriod n = (pad6 (digitsBE n)).map Nat.digitChar := by
  rcases Nat.eq_zero_or_pos n with rfl | hn
  · with_unfolding_all rfl
  · have hne : n ≠ 0 := by omega
    rw [encodePeriod, natStr, if_neg hne]
    have hnil : digitsBE n ≠ [] := by
      unfold digitsBE
      simp [Nat.digits_ne_nil_iff_ne_zero, hne]
    have hlen6 := digitsBE_len_le n h
    have hdig := digitsBE_lt n
    cases hd : digitsBE n with
    | nil => exact absurd hd hnil
    | cons d0 rest =>
      have hd0 : d0 < 10 := hdig d0 (hd ▸ List.mem_cons_self _ _)
      rw [hd] at hlen6
      simp only [List.map_cons, zfill6]
      by_cases h6 : 6 ≤ (Nat.digitChar d0 :: rest.map Nat.digitChar).length
      · rw [if_pos h6]
        have hlen : (d0 :: rest).length = 6 := by
          simp only [List.length_cons, List.length_map] at hlen6 h6 ⊢
          omega
        unfold pad6
        rw [hlen]
        norm_num
      · rw [if_neg h6, if_neg (digitChar_ne_sign d0 hd0)]
        unfold pad6
        simp only [List.map_append, List.map_replicate, List.map_cons,
          List.length_cons, List.length_map]
        rfl

/-- Claim C4: for 6-digit zero-padded period keys, Python string order
coincides with chronological year-month order, so string sorting and
string-range selection act chronologically. -/
theorem c4_lex_is_chronological (n m : ℕ) (hn : n < 1000000)
    (hm : m < 1000000) :
    (pyStrLe (encodePeriod n) (encodePeriod m) = true ↔ chronLe n m) := by
  rw [encodePeriod_eq n hn, encodePeriod_eq m hm,
    pyStrLe_map_digitChar _ _ (pad6_lt _ (digitsBE_lt n)) (pad6_lt _ (digitsBE_lt m)),
    digLe_iff _ _
      (by rw [pad6_length _ (digitsBE_len_le n hn), pad6_length _ (digitsBE_len_le m hm)])
      (pad6_lt _ (digitsBE_lt n)) (pad6_lt _ (digitsBE_lt m)),
    valBE_pad6, valBE_pad6, valBE_digitsBE, valBE_digitsBE]
  unfold chronLe
  omega

theorem c4_lex_is_chronological_witness :
    (202311 < 1000000 ∧ 202312 < 1000000) ∧
    (pyStrLe (encodePeriod 202311) (encodePeriod 202312) = true ↔
      chronLe 202311 202312) :=
  ⟨⟨by norm_num, by norm_num⟩,
    c4_lex_is_chronological 202311 202312 (by norm_num) (by norm_num)⟩
